import Mathlib

/-!
Verification development for the Ephemeral-First Security Framework (EFSF).

The repository ships the package interface (efsf/__init__.py) and two example
callers; the core modules (efsf.store, efsf.record, efsf.certificate,
efsf.sealed, efsf.crypto, efsf.exceptions) are declared and used but their
bodies are not part of the source tree.  Every definition below that embeds
one of those modules is therefore modelled from the specification text, as its
doc comment records.  Time is modelled as absolute Nat seconds and byte values
as Nat, following the design note that the core only operates on absolute
timestamps and durations.
-/

namespace EFSF

/-- Modelled from the spec: the error taxonomy of efsf.exceptions
(RecordNotFoundError, RecordExpiredError, CryptoError, AttestationError,
ConfigurationError), absent from src. -/
inductive EFSFError where
  | RecordNotFoundError
  | RecordExpiredError
  | CryptoError
  | AttestationError
  | ConfigurationError
deriving DecidableEq

/-! ### Association-list helpers

The Python core keeps records and keys in dictionaries; the shallow embedding
uses association lists keyed by Nat with first-match lookup. -/

/-- First-match lookup in an association list keyed by Nat. -/
def lookupBy {α : Type} (id : Nat) : List (Nat × α) → Option α
  | [] => none
  | p :: t => if p.1 = id then some p.2 else lookupBy id t

/-- Update every entry whose key equals id by applying g to its value. -/
def updBy {α : Type} (id : Nat) (g : α → α) : List (Nat × α) → List (Nat × α)
  | [] => []
  | p :: t => (if p.1 = id then (p.1, g p.2) else p) :: updBy id g t

/-! ### Data classification -/

/-- Modelled from the spec: efsf.record.DataClassification, a fixed set of
variants each carrying a default TTL and a maximum permitted TTL (seconds).
The spec fixes the TRANSIENT maximum at one hour. -/
inductive DataClassification where
  | TRANSIENT
  | SHORT_LIVED
  | RETENTION_BOUND
deriving DecidableEq

/-- Modelled from the spec: the default TTL carried by each variant. -/
def DataClassification.default_ttl : DataClassification → Nat
  | .TRANSIENT => 900
  | .SHORT_LIVED => 3600
  | .RETENTION_BOUND => 86400

/-- Modelled from the spec: the maximum permitted TTL carried by each
variant; TRANSIENT has max TTL 1h = 3600 seconds. -/
def DataClassification.max_ttl : DataClassification → Nat
  | .TRANSIENT => 3600
  | .SHORT_LIVED => 86400
  | .RETENTION_BOUND => 604800

/-! ### CryptoProvider -/

/-- A key cell: the backing bytes of one symmetric key plus a liveness flag.
destroy_key zeroes the bytes and clears the flag instead of deleting the
cell, so that the destroyed backing memory stays inspectable. -/
structure KeyCell where
  keyBytes : List Nat
  alive : Bool
deriving DecidableEq

/-- Modelled from the spec: the mutable state of efsf.crypto.CryptoProvider,
absent from src.  Keys are addressed by opaque Nat handles; nextHandle is the
fresh-handle counter. -/
structure CryptoState where
  keys : List (Nat × KeyCell)
  nextHandle : Nat
deriving DecidableEq

/-- Look up the key cell bound to a handle. -/
def lookupKey (cs : CryptoState) (h : Nat) : Option KeyCell :=
  lookupBy h cs.keys

/-- Deterministic stand-in for fresh random key bytes for handle h. -/
def keyBytesFor (h : Nat) : List Nat :=
  (List.range 4).map (fun i => (h * 131 + i * 17 + 7) % 256)

/-- Modelled from the spec: generate_key produces a fresh symmetric key bound
to an opaque handle; raw key bytes never leave the component. -/
def CryptoState.generate_key (cs : CryptoState) (_c : DataClassification) :
    CryptoState × Nat :=
  let h := cs.nextHandle
  (⟨cs.keys ++ [(h, ⟨keyBytesFor h, true⟩)], h + 1⟩, h)

/-- Cyclic additive cipher over byte lists; a concrete reversible stand-in
for the symmetric encryption of payload bytes. -/
def encryptBytes (kb : List Nat) (p : List Nat) : List Nat :=
  p.enum.map (fun q => (q.2 + kb.getD (q.1 % kb.length) 0) % 256)

/-- Inverse of encryptBytes with the same key bytes. -/
def decryptBytes (kb : List Nat) (c : List Nat) : List Nat :=
  c.enum.map (fun q => (q.2 + 256 - kb.getD (q.1 % kb.length) 0 % 256) % 256)

/-- Modelled from the spec: encrypt fails with CryptoError if the handle is
unknown or has been destroyed. -/
def CryptoState.encrypt (cs : CryptoState) (h : Nat) (p : List Nat) :
    Except EFSFError (List Nat) :=
  match lookupKey cs h with
  | none => .error .CryptoError
  | some k => if k.alive then .ok (encryptBytes k.keyBytes p) else .error .CryptoError

/-- Modelled from the spec: decrypt fails with CryptoError if the handle is
unknown or has been destroyed. -/
def CryptoState.decrypt (cs : CryptoState) (h : Nat) (c : List Nat) :
    Except EFSFError (List Nat) :=
  match lookupKey cs h with
  | none => .error .CryptoError
  | some k => if k.alive then .ok (decryptBytes k.keyBytes c) else .error .CryptoError

/-- Modelled from the spec: destroy_key overwrites the backing memory of the
key with zeros before releasing it; the zeroed, dead cell remains so the
destruction is observable. -/
def CryptoState.destroy_key (cs : CryptoState) (h : Nat) : CryptoState :=
  { cs with keys := updBy h (fun k => ⟨k.keyBytes.map (fun _ => 0), false⟩) cs.keys }

/-- The operations a caller can perform against a CryptoProvider. -/
inductive CryptoOp where
  | genKey (c : DataClassification)
  | encryptOp (h : Nat) (p : List Nat)
  | decryptOp (h : Nat) (c : List Nat)
  | destroyKeyOp (h : Nat)

/-- One CryptoProvider step: encrypt and decrypt leave the key store
unchanged; genKey and destroyKeyOp mutate it. -/
def applyCryptoOp (cs : CryptoState) : CryptoOp → CryptoState
  | .genKey c => (cs.generate_key c).1
  | .encryptOp _ _ => cs
  | .decryptOp _ _ => cs
  | .destroyKeyOp h => cs.destroy_key h

/-- A sequence of CryptoProvider steps. -/
def applyCryptoOps (cs : CryptoState) (ops : List CryptoOp) : CryptoState :=
  ops.foldl applyCryptoOp cs

/-- The key bound to handle h has been destroyed: its cell is dead and its
backing bytes are all zero. -/
def KeyDeadZero (cs : CryptoState) (h : Nat) : Prop :=
  ∃ k, lookupKey cs h = some k ∧ k.alive = false ∧ ∀ b ∈ k.keyBytes, b = 0

/-! ### Destruction certificates -/

/-- Modelled from the spec: destruction method enum
{EXPLICIT, EXPIRED, SEAL_EXIT}. -/
inductive DestructionMethod where
  | EXPLICIT
  | EXPIRED
  | SEAL_EXIT
deriving DecidableEq

/-- Fixed numeric code of each destruction method, used by the canonical
certificate encoding. -/
def methodCode : DestructionMethod → Nat
  | .EXPLICIT => 0
  | .EXPIRED => 1
  | .SEAL_EXIT => 2

/-- Modelled from the spec: the canonical, order-stable encoding of the
certificate fields {resource_id, method, timestamp, signer_key_id}, in that
fixed order, as fixed-width fields (one Nat per field). -/
def canonicalEncoding (resource : Nat) (m : DestructionMethod)
    (ts : Nat) (signer : Nat) : List Nat :=
  [resource, methodCode m, ts, signer]

/-- A keyed-MAC signature in the symbolic model: the MAC binds the exact
payload bytes and the identity of the signing key. -/
structure Signature where
  mac_payload : List Nat
  mac_key_id : Nat
deriving DecidableEq

/-- Modelled from the spec: CryptoProvider.sign, keyed-MAC signing over a
canonical order-stable payload, in the symbolic model of a MAC. -/
def sign (key_id : Nat) (payload : List Nat) : Signature :=
  ⟨payload, key_id⟩

/-- Modelled from the spec: CryptoProvider.verify, reproducible verification
of a signature against a payload and the signer identity. -/
def verify (key_id : Nat) (payload : List Nat) (sig : Signature) : Bool :=
  decide (sig.mac_payload = payload ∧ sig.mac_key_id = key_id)

/-- Modelled from the spec: efsf.certificate.DestructionCertificate, an
immutable proof-of-destruction artifact, absent from src.  Field names follow
the attribute names used by the example callers. -/
structure DestructionCertificate where
  certificate_id : Nat
  resource_id : Nat
  destruction_method : DestructionMethod
  destruction_timestamp : Nat
  signer_key_id : Nat
  signature : Signature
deriving DecidableEq

/-- Modelled from the spec: certificate issuance signs the canonical encoding
of {resource_id, method, timestamp, signer_key_id}. -/
def issueCertificate (cid rid : Nat) (m : DestructionMethod)
    (ts signer : Nat) : DestructionCertificate :=
  ⟨cid, rid, m, ts, signer, sign signer (canonicalEncoding rid m ts signer)⟩

/-- First-match lookup of a certificate by its certificate id. -/
def findCertificate (cid : Nat) : List DestructionCertificate →
    Option DestructionCertificate
  | [] => none
  | c :: t => if c.certificate_id = cid then some c else findCertificate cid t

/-! ### EphemeralStore -/

/-- Modelled from the spec: the per-record state machine
{ACTIVE → DESTROYED (terminal)}; expiry is checked lazily against the
expires_at timestamp while the record is still ACTIVE. -/
inductive RecState where
  | ACTIVE
  | DESTROYED
deriving DecidableEq

/-- Modelled from the spec: efsf.record.EphemeralRecord, absent from src.
A destroyed record remains as a tombstone carrying its certificate id, with
its ciphertext erased. -/
structure StoredRecord where
  key_id : Nat
  ciphertext : List Nat
  created_at : Nat
  expires_at : Nat
  access_count : Nat
  classification : DataClassification
  metadata : List (String × String)
  state : RecState
  cert_id : Option Nat
deriving DecidableEq

/-- Modelled from the spec: the mutable state of efsf.store.EphemeralStore,
absent from src: the record table, the crypto provider, the append-only
certificate history (newest first), fresh-id counters, and the attestation
switch with the signer key identity. -/
structure StoreState where
  records : List (Nat × StoredRecord)
  crypto : CryptoState
  certificates : List DestructionCertificate
  next_record_id : Nat
  next_cert_id : Nat
  attestation : Bool
  signer_key_id : Nat
deriving DecidableEq

/-- A fresh store with no records, keys or certificates. -/
def mkStore (attestation : Bool) (signer : Nat) : StoreState :=
  ⟨[], ⟨[], 0⟩, [], 0, 0, attestation, signer⟩

/-- Look up the record bound to an id (tombstones included). -/
def StoreState.lookupRecord (s : StoreState) (id : Nat) : Option StoredRecord :=
  lookupBy id s.records

/-- Modelled from the spec: EphemeralStore.put validates the requested TTL
against the maximum of the classification before any key is generated,
rejecting an excessive TTL with ConfigurationError rather than clamping it;
otherwise it generates an id and a key, encrypts, and inserts the record as
ACTIVE.  Returns the new store state and the record id. -/
def StoreState.put (s : StoreState) (now : Nat) (data : List Nat)
    (ttl : Option Nat) (c : DataClassification)
    (md : List (String × String)) : Except EFSFError (StoreState × Nat) :=
  let effTtl := ttl.getD c.default_ttl
  if c.max_ttl < effTtl then .error .ConfigurationError
  else
    let g := s.crypto.generate_key c
    match g.1.encrypt g.2 data with
    | .error e => .error e
    | .ok ct =>
      let rid := s.next_record_id
      let r : StoredRecord :=
        ⟨g.2, ct, now, now + effTtl, 0, c, md, .ACTIVE, none⟩
      let s2 : StoreState :=
        { s with
            records := s.records ++ [(rid, r)]
            crypto := g.1
            next_record_id := rid + 1 }
      .ok (s2, rid)

/-- Modelled from the spec: EphemeralStore.get fails with RecordNotFoundError
if the id is unknown or already DESTROYED, fails with RecordExpiredError if
now is at or past expires_at (the lazy-expiration check performed on every
read), and otherwise increments the access count and decrypts. -/
def StoreState.get (s : StoreState) (now : Nat) (id : Nat) :
    Except EFSFError (StoreState × List Nat) :=
  match s.lookupRecord id with
  | none => .error .RecordNotFoundError
  | some r =>
    if r.state = RecState.DESTROYED then .error .RecordNotFoundError
    else if r.expires_at ≤ now then .error .RecordExpiredError
    else
      match s.crypto.decrypt r.key_id r.ciphertext with
      | .error e => .error e
      | .ok pt =>
        let s2 : StoreState :=
          { s with
              records := updBy id
                (fun r0 => { r0 with access_count := r0.access_count + 1 })
                s.records }
        .ok (s2, pt)

/-- Modelled from the spec: EphemeralStore.exists is a pure liveness check
returning a Bool and never raising: true only if the record is ACTIVE and not
expired. -/
def StoreState.existsRecord (s : StoreState) (now : Nat) (id : Nat) : Bool :=
  match s.lookupRecord id with
  | none => false
  | some r => decide (r.state = RecState.ACTIVE ∧ now < r.expires_at)

/-- Modelled from the spec: the shared destruction path used by explicit
destroy (method EXPLICIT) and the reaper (method EXPIRED).  An unknown id
fails with RecordNotFoundError; an already DESTROYED record is handled
idempotently by returning its existing certificate from the tombstone; an
ACTIVE record has its key destroyed, its ciphertext erased, and a signed
certificate issued and prepended to the history. -/
def destroyWith (s : StoreState) (now : Nat) (id : Nat)
    (m : DestructionMethod) :
    Except EFSFError (StoreState × DestructionCertificate) :=
  match s.lookupRecord id with
  | none => .error .RecordNotFoundError
  | some r =>
    if r.state = RecState.DESTROYED then
      match r.cert_id with
      | none => .error .AttestationError
      | some cid =>
        match findCertificate cid s.certificates with
        | none => .error .AttestationError
        | some c => .ok (s, c)
    else
      let cert := issueCertificate s.next_cert_id id m now s.signer_key_id
      let s2 : StoreState :=
        { s with
            crypto := s.crypto.destroy_key r.key_id
            certificates := cert :: s.certificates
            next_cert_id := s.next_cert_id + 1
            records := updBy id
              (fun r0 =>
                { r0 with
                    ciphertext := []
                    state := RecState.DESTROYED
                    cert_id := some cert.certificate_id }) s.records }
      .ok (s2, cert)

/-- Modelled from the spec: EphemeralStore.destroy transitions the record to
DESTROYED with method EXPLICIT. -/
def StoreState.destroy (s : StoreState) (now : Nat) (id : Nat) :
    Except EFSFError (StoreState × DestructionCertificate) :=
  destroyWith s now id .EXPLICIT

/-- Modelled from the spec: the background reaper scans records whose
expires_at has passed and are still ACTIVE, and destroys them with method
EXPIRED identically to explicit destruction, continuing past failures. -/
def StoreState.reap (s : StoreState) (now : Nat) : StoreState :=
  (s.records.map Prod.fst).foldl (fun acc id =>
    match acc.lookupRecord id with
    | none => acc
    | some r =>
      if r.state = RecState.ACTIVE ∧ r.expires_at ≤ now then
        match destroyWith acc now id .EXPIRED with
        | .ok p => p.1
        | .error _ => acc
      else acc) s

/-- The operations a caller (or the reaper) can perform against a store. -/
inductive StoreOp where
  | putOp (now : Nat) (data : List Nat) (ttl : Option Nat)
      (c : DataClassification) (md : List (String × String))
  | getOp (now : Nat) (id : Nat)
  | destroyOp (now : Nat) (id : Nat)
  | reapOp (now : Nat)

/-- One store step; a failing operation leaves the state unchanged. -/
def applyOp (s : StoreState) : StoreOp → StoreState
  | .putOp now data ttl c md =>
    match s.put now data ttl c md with
    | .ok p => p.1
    | .error _ => s
  | .getOp now id =>
    match s.get now id with
    | .ok p => p.1
    | .error _ => s
  | .destroyOp now id =>
    match s.destroy now id with
    | .ok p => p.1
    | .error _ => s
  | .reapOp now => s.reap now

/-- A sequence of store steps. -/
def applyOps (s : StoreState) (ops : List StoreOp) : StoreState :=
  ops.foldl applyOp s

/-- The record bound to id is a DESTROYED tombstone. -/
def RecordDestroyed (s : StoreState) (id : Nat) : Prop :=
  ∃ r, s.lookupRecord id = some r ∧ r.state = RecState.DESTROYED

/-! ### SealedExecution -/

/-- A cleanup callback registered with on_cleanup, identified by an id; the
fails flag tells whether running it raises. -/
structure CleanupCallback where
  cb_id : Nat
  fails : Bool
deriving DecidableEq

/-- Modelled from the spec: the SealedScope runtime state, owning the tracked
secret buffers and the registered cleanup callbacks, both collected in
registration order during the body of the scope. -/
structure SealedScope where
  buffers : List (List Nat)
  cleanups : List CleanupCallback
deriving DecidableEq

/-- One registration action performed by the body of a sealed scope. -/
inductive ScopeStep where
  | trackStep (buf : List Nat)
  | onCleanupStep (cb : CleanupCallback)
deriving DecidableEq

/-- How the body of a sealed scope finishes: a normal return whose value is a
mapping, a normal return of a non-mapping value, or a raised fault. -/
inductive SealedOutcome where
  | normalMap (m : List (String × String))
  | normalOther (v : String)
  | fault (msg : String)
deriving DecidableEq

/-- Observable events of the exit sequence of a sealed scope, in order. -/
inductive SealedEvent where
  | cleanupRan (cb_id : Nat) (ok : Bool)
  | buffersWiped
  | certIssued (cert_id : Nat)
deriving DecidableEq

/-- One registration step applied to the scope state: track appends to the
buffer list, on_cleanup appends to the callback list. -/
def scopeStepApply (sc : SealedScope) : ScopeStep → SealedScope
  | .trackStep b => { sc with buffers := sc.buffers ++ [b] }
  | .onCleanupStep c => { sc with cleanups := sc.cleanups ++ [c] }

/-- Modelled from the spec: track and on_cleanup register into the scope in
order; the body is embedded as the list of its registration actions. -/
def buildScope (steps : List ScopeStep) : SealedScope :=
  steps.foldl scopeStepApply ⟨[], []⟩

/-- The buffers passed to track, in registration order. -/
def trackedBuffers (steps : List ScopeStep) : List (List Nat) :=
  steps.filterMap (fun st =>
    match st with
    | .trackStep b => some b
    | .onCleanupStep _ => none)

/-- The callbacks passed to on_cleanup, in registration order. -/
def registeredCleanups (steps : List ScopeStep) : List CleanupCallback :=
  steps.filterMap (fun st =>
    match st with
    | .trackStep _ => none
    | .onCleanupStep c => some c)

/-- Modelled from the spec: the cleanup phase runs every registered callback
in registration order, tolerating and logging (not propagating) a failing
callback so one failure cannot block the rest. -/
def runCleanups (cbs : List CleanupCallback) : List SealedEvent :=
  cbs.map (fun c => .cleanupRan c.cb_id (!c.fails))

/-- Overwrite every byte of a buffer with zero. -/
def wipeBuffer (b : List Nat) : List Nat :=
  b.map (fun _ => 0)

/-- Number of buffer-wipe events in an exit trace. -/
def countWipeEvents : List SealedEvent → Nat
  | [] => 0
  | .buffersWiped :: t => countWipeEvents t + 1
  | _ :: t => countWipeEvents t

/-- What a sealed scope leaves behind after exit: the ordered event trace,
the tracked buffers after wiping, the certificate attribute of the scope
object, and the outcome of the body with the certificate attached when the
result is a mapping. -/
structure SealedExitResult where
  events : List SealedEvent
  buffers_after : List (List Nat)
  certificate : Option DestructionCertificate
  result : SealedOutcome
deriving DecidableEq

/-- The reserved key under which the certificate is attached to mapping
results, as used by the example callers. -/
def reservedCertKey : String :=
  "_destruction_certificate"

/-- Modelled from the spec: if the scope wraps a function whose result is a
mapping, the certificate is attached under a reserved key. -/
def attachCertificate (o : SealedOutcome)
    (c : Option DestructionCertificate) : SealedOutcome :=
  match o, c with
  | .normalMap m, some cert =>
    .normalMap (m ++ [(reservedCertKey, toString cert.certificate_id)])
  | _, _ => o

/-- Modelled from the spec: the deterministic exit sequence of a sealed
scope, in this order: (1) run all registered cleanup callbacks in
registration order, tolerating failures; (2) overwrite every tracked buffer
with zeros; (3) if attestation is enabled, synthesize and sign a
DestructionCertificate with method SEAL_EXIT for the synthetic resource id of
the scope; (4) attach the certificate to mapping results. -/
def sealedExit (attestation : Bool) (scope : SealedScope)
    (oc : SealedOutcome) (cid rid now signer : Nat) : SealedExitResult :=
  let ev1 := runCleanups scope.cleanups
  let cert := if attestation
    then some (issueCertificate cid rid .SEAL_EXIT now signer) else none
  { events := ev1 ++ [SealedEvent.buffersWiped] ++
      (match cert with
       | some c => [SealedEvent.certIssued c.certificate_id]
       | none => [])
    buffers_after := scope.buffers.map wipeBuffer
    certificate := cert
    result := attachCertificate oc cert }

/-- Modelled from the spec: a full sealed execution builds the scope from the
registration actions of the body and then performs the exit sequence
unconditionally, whatever the outcome of the body (normal return, early
return, or raised fault) — the try/finally-equivalent guaranteed-release
contract. -/
def runSealed (attestation : Bool) (steps : List ScopeStep)
    (oc : SealedOutcome) (cid rid now signer : Nat) : SealedExitResult :=
  sealedExit attestation (buildScope steps) oc cid rid now signer

/-! ### Concrete sample states used to instantiate the theorems -/

/-- Extract the next store state from a destroy result, with a default. -/
def pickState (d : StoreState)
    (x : Except EFSFError (StoreState × DestructionCertificate)) :
    StoreState :=
  match x with
  | .ok p => p.1
  | .error _ => d

/-- Extract the certificate from a destroy result, with a default. -/
def pickCert (d : DestructionCertificate)
    (x : Except EFSFError (StoreState × DestructionCertificate)) :
    DestructionCertificate :=
  match x with
  | .ok p => p.2
  | .error _ => d

/-- A placeholder certificate used only as an extraction default. -/
def dummyCert : DestructionCertificate :=
  issueCertificate 0 0 .EXPLICIT 0 0

/-- A store holding one record, put at time 0 with TTL 100 seconds. -/
def storeA : StoreState :=
  applyOp (mkStore true 9) (.putOp 0 [1, 2, 3] (some 100) .TRANSIENT [])

/-- The store after explicitly destroying record 0 of storeA at time 5. -/
def storeB : StoreState :=
  pickState storeA (storeA.destroy 5 0)

/-- The certificate issued by that destruction. -/
def certB : DestructionCertificate :=
  pickCert dummyCert (storeA.destroy 5 0)

/-- The record stored in storeA under id 0. -/
def recA : StoredRecord :=
  match storeA.lookupRecord 0 with
  | some r => r
  | none => ⟨0, [], 0, 0, 0, .TRANSIENT, [], .ACTIVE, none⟩

/-- A crypto provider holding one generated key under handle 0. -/
def cryptoA : CryptoState :=
  ((⟨[], 0⟩ : CryptoState).generate_key .TRANSIENT).1

/-- The key cell bound to handle 0 in cryptoA. -/
def keyA : KeyCell :=
  ⟨keyBytesFor 0, true⟩

/-! ### Association-list lemmas -/

theorem lookupBy_updBy_self {α : Type} (id : Nat) (g : α → α)
    (l : List (Nat × α)) :
    lookupBy id (updBy id g l) = (lookupBy id l).map g := by
  induction l with
  | nil => rfl
  | cons p t ih =>
    by_cases hp : p.1 = id
    · simp [lookupBy, updBy, hp]
    · simp [lookupBy, updBy, hp, ih]

theorem lookupBy_updBy_ne {α : Type} (id id2 : Nat) (g : α → α)
    (l : List (Nat × α)) (h : id ≠ id2) :
    lookupBy id (updBy id2 g l) = lookupBy id l := by
  have hs : id2 ≠ id := fun he => h he.symm
  induction l with
  | nil => rfl
  | cons p t ih =>
    by_cases hp : p.1 = id2
    · simp [lookupBy, updBy, hp, hs, ih]
    · by_cases hq : p.1 = id
      · simp [lookupBy, updBy, hp, hq, h]
      · simp [lookupBy, updBy, hp, hq, ih]

theorem lookupBy_append_of_some {α : Type} (id : Nat) (v : α)
    (l l2 : List (Nat × α)) (h : lookupBy id l = some v) :
    lookupBy id (l ++ l2) = some v := by
  induction l with
  | nil => simp [lookupBy] at h
  | cons p t ih =>
    by_cases hp : p.1 = id
    · simp [lookupBy, hp] at h
      simp [lookupBy, hp, h]
    · simp [lookupBy, hp] at h
      simp [lookupBy, hp, ih h]

theorem lookup_updBy_exists {α : Type} (id : Nat) (g : α → α)
    (l : List (Nat × α)) (v : α) (h : lookupBy id l = some v) :
    lookupBy id (updBy id g l) = some (g v) := by
  rw [lookupBy_updBy_self, h]
  rfl

/-! ### CryptoProvider lemmas -/

theorem mem_const_zero_map {α : Type} {b : Nat} {l : List α}
    (hb : b ∈ l.map (fun _ => (0 : Nat))) : b = 0 := by
  rw [List.mem_map] at hb
  obtain ⟨a, _, h2⟩ := hb
  exact h2.symm

theorem destroy_key_dead_zero (cs : CryptoState) (h : Nat) (k : KeyCell)
    (hk : lookupKey cs h = some k) : KeyDeadZero (cs.destroy_key h) h := by
  refine ⟨⟨k.keyBytes.map (fun _ => 0), false⟩, ?_, rfl, ?_⟩
  · unfold lookupKey CryptoState.destroy_key
    unfold lookupKey at hk
    rw [lookupBy_updBy_self, hk]
    rfl
  · intro b hb
    exact mem_const_zero_map hb

theorem applyCryptoOp_preserves_dead (cs : CryptoState) (h : Nat)
    (hd : KeyDeadZero cs h) (op : CryptoOp) :
    KeyDeadZero (applyCryptoOp cs op) h := by
  obtain ⟨k, hk, ha, hz⟩ := hd
  cases op with
  | genKey c =>
    refine ⟨k, ?_, ha, hz⟩
    unfold applyCryptoOp CryptoState.generate_key lookupKey
    unfold lookupKey at hk
    exact lookupBy_append_of_some _ _ _ _ hk
  | encryptOp h2 p => exact ⟨k, hk, ha, hz⟩
  | decryptOp h2 c => exact ⟨k, hk, ha, hz⟩
  | destroyKeyOp h2 =>
    by_cases he : h = h2
    · subst he
      refine ⟨⟨k.keyBytes.map (fun _ => 0), false⟩, ?_, rfl, ?_⟩
      · unfold applyCryptoOp CryptoState.destroy_key lookupKey
        unfold lookupKey at hk
        rw [lookupBy_updBy_self, hk]
        rfl
      · intro b hb
        exact mem_const_zero_map hb
    · refine ⟨k, ?_, ha, hz⟩
      unfold applyCryptoOp CryptoState.destroy_key lookupKey
      unfold lookupKey at hk
      rw [lookupBy_updBy_ne _ _ _ _ he]
      exact hk

theorem applyCryptoOps_preserves_dead (h : Nat) (ops : List CryptoOp) :
    ∀ cs : CryptoState, KeyDeadZero cs h →
      KeyDeadZero (applyCryptoOps cs ops) h := by
  induction ops with
  | nil => intro cs hd; exact hd
  | cons op t ih =>
    intro cs hd
    have hstep : applyCryptoOps cs (op :: t) =
        applyCryptoOps (applyCryptoOp cs op) t := rfl
    rw [hstep]
    exact ih _ (applyCryptoOp_preserves_dead _ _ hd op)

theorem decrypt_of_dead (cs : CryptoState) (h : Nat)
    (hd : KeyDeadZero cs h) (c : List Nat) :
    cs.decrypt h c = .error .CryptoError := by
  obtain ⟨k, hk, ha, _⟩ := hd
  unfold CryptoState.decrypt
  rw [hk]
  simp [ha]

theorem encrypt_of_dead (cs : CryptoState) (h : Nat)
    (hd : KeyDeadZero cs h) (p : List Nat) :
    cs.encrypt h p = .error .CryptoError := by
  obtain ⟨k, hk, ha, _⟩ := hd
  unfold CryptoState.encrypt
  rw [hk]
  simp [ha]

/-! ### EphemeralStore lemmas -/

theorem destroyed_lookup_updBy (id id2 : Nat) (g : StoredRecord → StoredRecord)
    (hg : ∀ r0, (g r0).state = r0.state ∨ (g r0).state = RecState.DESTROYED)
    (l : List (Nat × StoredRecord)) (r : StoredRecord)
    (hl : lookupBy id l = some r) (hr : r.state = RecState.DESTROYED) :
    ∃ r2, lookupBy id (updBy id2 g l) = some r2 ∧
      r2.state = RecState.DESTROYED := by
  by_cases he : id = id2
  · subst he
    rw [lookupBy_updBy_self, hl]
    refine ⟨g r, rfl, ?_⟩
    rcases hg r with h | h
    · rw [h]; exact hr
    · exact h
  · rw [lookupBy_updBy_ne _ _ _ _ he]
    exact ⟨r, hl, hr⟩

theorem put_ok_records (s : StoreState) (now : Nat) (data : List Nat)
    (ttl : Option Nat) (c : DataClassification) (md : List (String × String))
    (s2 : StoreState) (rid : Nat)
    (hp : s.put now data ttl c md = .ok (s2, rid)) :
    ∃ r, s2.records = s.records ++ [(rid, r)] := by
  unfold StoreState.put at hp
  by_cases ht : c.max_ttl < ttl.getD c.default_ttl
  · simp [ht] at hp
  · simp only [if_neg ht] at hp
    cases he : (s.crypto.generate_key c).1.encrypt
        (s.crypto.generate_key c).2 data with
    | error e => rw [he] at hp; simp at hp
    | ok ct =>
      rw [he] at hp
      simp only [Except.ok.injEq, Prod.mk.injEq] at hp
      obtain ⟨h1, h2⟩ := hp
      subst h1
      refine ⟨⟨(s.crypto.generate_key c).2, ct, now,
        now + ttl.getD c.default_ttl, 0, c, md, .ACTIVE, none⟩, ?_⟩
      rw [← h2]

theorem get_ok_records (s : StoreState) (now id2 : Nat)
    (s2 : StoreState) (pt : List Nat)
    (hg : s.get now id2 = .ok (s2, pt)) :
    s2.records = updBy id2
      (fun r0 => { r0 with access_count := r0.access_count + 1 })
      s.records := by
  unfold StoreState.get at hg
  split at hg
  · simp at hg
  · split at hg
    · simp at hg
    · split at hg
      · simp at hg
      · split at hg
        · simp at hg
        · simp only [Except.ok.injEq, Prod.mk.injEq] at hg
          obtain ⟨h1, h2⟩ := hg
          subst h1
          rfl

theorem destroyWith_ok_destroyed (s : StoreState) (now id : Nat)
    (m : DestructionMethod) (s2 : StoreState) (cert : DestructionCertificate)
    (hok : destroyWith s now id m = .ok (s2, cert)) :
    RecordDestroyed s2 id := by
  unfold destroyWith at hok
  split at hok
  · simp at hok
  next r hl =>
    split at hok
    next hr =>
      split at hok
      · simp at hok
      next cid hc =>
        split at hok
        · simp at hok
        next c hf =>
          simp only [Except.ok.injEq, Prod.mk.injEq] at hok
          obtain ⟨h1, h2⟩ := hok
          subst h1
          exact ⟨r, hl, hr⟩
    next hr =>
      simp only [Except.ok.injEq, Prod.mk.injEq] at hok
      obtain ⟨h1, h2⟩ := hok
      subst h1
      unfold StoreState.lookupRecord at hl
      have hw := lookup_updBy_exists id
        (fun r0 => { r0 with ciphertext := [], state := RecState.DESTROYED, cert_id := some (issueCertificate s.next_cert_id id m now s.signer_key_id).certificate_id })
        s.records r hl
      exact ⟨_, hw, rfl⟩

theorem destroyWith_preserves_destroyed (s : StoreState) (now id2 : Nat)
    (m : DestructionMethod) (s2 : StoreState) (cert : DestructionCertificate)
    (hok : destroyWith s now id2 m = .ok (s2, cert))
    (id : Nat) (hd : RecordDestroyed s id) : RecordDestroyed s2 id := by
  unfold destroyWith at hok
  split at hok
  · simp at hok
  next r hl =>
    split at hok
    next hr =>
      split at hok
      · simp at hok
      next cid hc =>
        split at hok
        · simp at hok
        next c hf =>
          simp only [Except.ok.injEq, Prod.mk.injEq] at hok
          obtain ⟨h1, h2⟩ := hok
          subst h1
          exact hd
    next hr =>
      simp only [Except.ok.injEq, Prod.mk.injEq] at hok
      obtain ⟨h1, h2⟩ := hok
      subst h1
      obtain ⟨rd, hld, hrd⟩ := hd
      unfold StoreState.lookupRecord at hld
      by_cases he : id = id2
      · subst he
        have hw := lookup_updBy_exists id
          (fun r0 => { r0 with ciphertext := [], state := RecState.DESTROYED, cert_id := some (issueCertificate s.next_cert_id id m now s.signer_key_id).certificate_id })
          s.records rd hld
        exact ⟨_, hw, rfl⟩
      · refine ⟨rd, ?_, hrd⟩
        show lookupBy id (updBy id2 _ s.records) = some rd
        rw [lookupBy_updBy_ne _ _ _ _ he]
        exact hld

theorem reapStep_preserves_destroyed (s : StoreState) (now i id : Nat)
    (hd : RecordDestroyed s id) :
    RecordDestroyed (match s.lookupRecord i with
      | none => s
      | some r =>
        if r.state = RecState.ACTIVE ∧ r.expires_at ≤ now then
          match destroyWith s now i .EXPIRED with
          | .ok p => p.1
          | .error _ => s
        else s) id := by
  cases hl : s.lookupRecord i with
  | none => exact hd
  | some r =>
    show RecordDestroyed (if r.state = RecState.ACTIVE ∧ r.expires_at ≤ now
      then _ else s) id
    by_cases hc : r.state = RecState.ACTIVE ∧ r.expires_at ≤ now
    · rw [if_pos hc]
      cases hk : destroyWith s now i .EXPIRED with
      | ok p =>
        exact destroyWith_preserves_destroyed s now i .EXPIRED p.1 p.2
          (by rw [hk]) id hd
      | error e => exact hd
    · rw [if_neg hc]
      exact hd

theorem reap_preserves_destroyed (s : StoreState) (now : Nat) (id : Nat)
    (hd : RecordDestroyed s id) : RecordDestroyed (s.reap now) id := by
  unfold StoreState.reap
  generalize s.records.map Prod.fst = ids
  induction ids generalizing s with
  | nil => exact hd
  | cons i t ih =>
    show RecordDestroyed (List.foldl _ _ t) id
    exact ih _ (reapStep_preserves_destroyed s now i id hd)

theorem applyOp_preserves_destroyed (s : StoreState) (id : Nat)
    (hd : RecordDestroyed s id) (op : StoreOp) :
    RecordDestroyed (applyOp s op) id := by
  cases op with
  | putOp now data ttl c md =>
    show RecordDestroyed (match s.put now data ttl c md with
      | .ok p => p.1 | .error _ => s) id
    cases hp : s.put now data ttl c md with
    | error e => exact hd
    | ok p =>
      obtain ⟨r, hrec⟩ := put_ok_records s now data ttl c md p.1 p.2
        (by rw [hp])
      obtain ⟨rd, hld, hrd⟩ := hd
      refine ⟨rd, ?_, hrd⟩
      show lookupBy id p.1.records = some rd
      rw [hrec]
      exact lookupBy_append_of_some _ _ _ _ hld
  | getOp now id2 =>
    show RecordDestroyed (match s.get now id2 with
      | .ok p => p.1 | .error _ => s) id
    cases hp : s.get now id2 with
    | error e => exact hd
    | ok p =>
      have hrec := get_ok_records s now id2 p.1 p.2 (by rw [hp])
      obtain ⟨rd, hld, hrd⟩ := hd
      unfold StoreState.lookupRecord at hld
      by_cases he : id = id2
      · subst he
        have hw : lookupBy id p.1.records = some
            { rd with access_count := rd.access_count + 1 } := by
          rw [hrec]
          exact lookup_updBy_exists id _ s.records rd hld
        exact ⟨_, hw, hrd⟩
      · refine ⟨rd, ?_, hrd⟩
        show lookupBy id p.1.records = some rd
        rw [hrec, lookupBy_updBy_ne _ _ _ _ he]
        exact hld
  | destroyOp now id2 =>
    show RecordDestroyed (match s.destroy now id2 with
      | .ok p => p.1 | .error _ => s) id
    cases hp : s.destroy now id2 with
    | error e => exact hd
    | ok p =>
      have hp2 : destroyWith s now id2 .EXPLICIT = .ok (p.1, p.2) := by
        unfold StoreState.destroy at hp
        rw [hp]
      exact destroyWith_preserves_destroyed s now id2 .EXPLICIT p.1 p.2
        hp2 id hd
  | reapOp now =>
    show RecordDestroyed (s.reap now) id
    exact reap_preserves_destroyed s now id hd

theorem applyOps_preserves_destroyed (id : Nat) (ops : List StoreOp) :
    ∀ s : StoreState, RecordDestroyed s id →
      RecordDestroyed (applyOps s ops) id := by
  induction ops with
  | nil => intro s hd; exact hd
  | cons op t ih =>
    intro s hd
    show RecordDestroyed (List.foldl applyOp (applyOp s op) t) id
    exact ih _ (applyOp_preserves_destroyed s id hd op)

theorem get_of_destroyed (s : StoreState) (now id : Nat)
    (hd : RecordDestroyed s id) :
    s.get now id = .error .RecordNotFoundError := by
  obtain ⟨r, hl, hr⟩ := hd
  unfold StoreState.get
  rw [hl]
  simp [hr]

theorem destroyWith_of_tombstone (s : StoreState) (now id : Nat)
    (m : DestructionMethod) (r : StoredRecord) (cid : Nat)
    (c : DestructionCertificate)
    (hl : s.lookupRecord id = some r) (hr : r.state = RecState.DESTROYED)
    (hc : r.cert_id = some cid)
    (hf : findCertificate cid s.certificates = some c) :
    destroyWith s now id m = .ok (s, c) := by
  unfold destroyWith
  rw [hl]
  simp [hr, hc, hf]

theorem destroyWith_idem (s : StoreState) (now now2 id : Nat)
    (m m2 : DestructionMethod) (s2 : StoreState)
    (cert : DestructionCertificate)
    (hok : destroyWith s now id m = .ok (s2, cert)) :
    destroyWith s2 now2 id m2 = .ok (s2, cert) := by
  unfold destroyWith at hok
  split at hok
  · simp at hok
  next r hl =>
    split at hok
    next hr =>
      split at hok
      · simp at hok
      next cid hc =>
        split at hok
        · simp at hok
        next c hf =>
          simp only [Except.ok.injEq, Prod.mk.injEq] at hok
          obtain ⟨h1, h2⟩ := hok
          subst h1
          subst h2
          exact destroyWith_of_tombstone s now2 id m2 r cid c hl hr hc hf
    next hr =>
      simp only [Except.ok.injEq, Prod.mk.injEq] at hok
      obtain ⟨h1, h2⟩ := hok
      subst h1
      subst h2
      unfold StoreState.lookupRecord at hl
      have hw := lookup_updBy_exists id
        (fun r0 => { r0 with ciphertext := [], state := RecState.DESTROYED, cert_id := some (issueCertificate s.next_cert_id id m now s.signer_key_id).certificate_id })
        s.records r hl
      refine destroyWith_of_tombstone _ now2 id m2 _
        (issueCertificate s.next_cert_id id m now s.signer_key_id).certificate_id
        _ hw rfl rfl ?_
      show findCertificate _
        (issueCertificate s.next_cert_id id m now s.signer_key_id
          :: s.certificates) = _
      simp [findCertificate]

theorem destroyWith_notfound_lookup (s : StoreState) (now id : Nat)
    (m : DestructionMethod)
    (he : destroyWith s now id m = .error .RecordNotFoundError) :
    s.lookupRecord id = none := by
  unfold destroyWith at he
  split at he
  next hl => exact hl
  next r hl =>
    split at he
    next hr =>
      split at he
      · simp at he
      next cid hc =>
        split at he
        · simp at he
        next c hf => simp at he
    next hr => simp at he

/-! ### SealedExecution lemmas -/

theorem foldl_scopeStep (steps : List ScopeStep) :
    ∀ acc : SealedScope, steps.foldl scopeStepApply acc =
      ⟨acc.buffers ++ trackedBuffers steps,
        acc.cleanups ++ registeredCleanups steps⟩ := by
  induction steps with
  | nil =>
    intro acc
    simp [trackedBuffers, registeredCleanups]
  | cons st t ih =>
    intro acc
    cases st with
    | trackStep b =>
      show List.foldl scopeStepApply (scopeStepApply acc (.trackStep b)) t = _
      rw [ih]
      simp [scopeStepApply, trackedBuffers, registeredCleanups,
        List.filterMap_cons]
    | onCleanupStep c =>
      show List.foldl scopeStepApply (scopeStepApply acc (.onCleanupStep c)) t
        = _
      rw [ih]
      simp [scopeStepApply, trackedBuffers, registeredCleanups,
        List.filterMap_cons]

theorem buildScope_eq (steps : List ScopeStep) :
    buildScope steps = ⟨trackedBuffers steps, registeredCleanups steps⟩ := by
  unfold buildScope
  rw [foldl_scopeStep]
  simp

theorem wipeBuffer_all_zero (b : List Nat) :
    (wipeBuffer b).all (fun x => x == 0) = true := by
  induction b with
  | nil => rfl
  | cons x t ih => simp [wipeBuffer] at ih ⊢

theorem wipe_map_all_zero (l : List (List Nat)) :
    ((l.map wipeBuffer).all (fun b => b.all (fun x => x == 0))) = true := by
  induction l with
  | nil => rfl
  | cons b t ih => simp [wipeBuffer_all_zero b, ih]

theorem countWipeEvents_append (l1 l2 : List SealedEvent) :
    countWipeEvents (l1 ++ l2) = countWipeEvents l1 + countWipeEvents l2 := by
  induction l1 with
  | nil => simp [countWipeEvents]
  | cons e t ih =>
    cases e with
    | cleanupRan a b => simp [countWipeEvents, ih]
    | buffersWiped => simp [countWipeEvents, ih]; omega
    | certIssued a => simp [countWipeEvents, ih]

theorem countWipeEvents_runCleanups (cbs : List CleanupCallback) :
    countWipeEvents (runCleanups cbs) = 0 := by
  induction cbs with
  | nil => rfl
  | cons c t ih => simpa [runCleanups, countWipeEvents] using ih

theorem methodCode_inj (a b : DestructionMethod)
    (h : methodCode a = methodCode b) : a = b := by
  cases a <;> cases b <;> first
    | rfl
    | simp [methodCode] at h

/-! ### Claims -/

/-- Claim C1: for every record id passed to a successful EphemeralStore
destroy, every subsequent get on that id (after any further sequence of
store operations, the reaper included) fails with RecordNotFoundError and in
particular never returns the previously stored plaintext. -/
theorem get_after_destroy (s s2 : StoreState) (now now2 : Nat) (id : Nat)
    (cert : DestructionCertificate) (ops : List StoreOp)
    (hdes : s.destroy now id = .ok (s2, cert)) :
    (applyOps s2 ops).get now2 id = .error .RecordNotFoundError := by
  have hd0 : RecordDestroyed s2 id := by
    refine destroyWith_ok_destroyed s now id .EXPLICIT s2 cert ?_
    unfold StoreState.destroy at hdes
    exact hdes
  exact get_of_destroyed _ now2 id (applyOps_preserves_destroyed id ops s2 hd0)

/-- Witness for C1 at a concrete store: destroy record 0 at time 5, run the
reaper, then get at time 300. -/
theorem get_after_destroy_witness :
    (applyOps storeB [StoreOp.reapOp 200]).get 300 0
      = .error .RecordNotFoundError :=
  get_after_destroy storeA storeB 5 300 0 certB [StoreOp.reapOp 200] (by rfl)

/-- Counterexample for C2 as stated: once the reaper has destroyed an
expired record, get fails with RecordNotFoundError, not RecordExpiredError,
so the error is not RecordExpiredError regardless of whether the reaper has
run. -/
theorem get_expired_after_reap_cex :
    (storeA.reap 100).get 100 0 = .error .RecordNotFoundError
    ∧ (storeA.reap 100).get 100 0 ≠ .error .RecordExpiredError := by
  refine ⟨rfl, ?_⟩
  intro h
  rw [show (storeA.reap 100).get 100 0 = .error .RecordNotFoundError
    from rfl] at h
  simp at h

/-- Claim C2 (amended): once now is at or past expires-at, get on a record
the reaper has not yet destroyed (still ACTIVE) fails with
RecordExpiredError - the lazy check on every read enforces expiration even
if the reaper is delayed or absent; after the reaper has destroyed the
record, get fails with RecordNotFoundError instead. -/
theorem get_lazy_expiration (s : StoreState) (now id : Nat)
    (r : StoredRecord) (hl : s.lookupRecord id = some r)
    (ha : r.state = RecState.ACTIVE) (he : r.expires_at ≤ now) :
    s.get now id = .error .RecordExpiredError := by
  unfold StoreState.get
  rw [hl]
  have hnd : ¬r.state = RecState.DESTROYED := by
    rw [ha]
    simp
  simp [hnd, he]

/-- Witness for C2 (amended): the record of storeA expires at 100 and the
reaper has not run, so get at 100 fails with RecordExpiredError. -/
theorem get_lazy_expiration_witness :
    storeA.get 100 0 = .error .RecordExpiredError :=
  get_lazy_expiration storeA 100 0 recA (by rfl) (by rfl) (by decide)

/-- Claim C3: for every sealed scope and every exit path (normal mapping
return, other return, or raised fault), the buffers after exit are exactly
the tracked buffers wiped, every byte of every tracked buffer is zero after
exit, and the wipe step executes exactly once per scope. -/
theorem sealed_wipe_every_exit (att : Bool) (steps : List ScopeStep)
    (oc : SealedOutcome) (cid rid now signer : Nat) :
    (runSealed att steps oc cid rid now signer).buffers_after
        = (trackedBuffers steps).map wipeBuffer
    ∧ ((runSealed att steps oc cid rid now signer).buffers_after.all
        (fun b => b.all (fun x => x == 0))) = true
    ∧ countWipeEvents (runSealed att steps oc cid rid now signer).events
        = 1 := by
  refine ⟨?_, ?_, ?_⟩
  · show (buildScope steps).buffers.map wipeBuffer = _
    rw [buildScope_eq]
  · show ((buildScope steps).buffers.map wipeBuffer).all _ = true
    exact wipe_map_all_zero _
  · cases att <;>
      simp [runSealed, sealedExit, countWipeEvents_append,
        countWipeEvents_runCleanups, countWipeEvents]

/-- Claim C4: after destroy_key on a handle, decrypt and encrypt on that
handle fail with CryptoError after any further sequence of provider
operations, and the backing bytes of the key are all zero - no operation
can reconstruct the key. -/
theorem decrypt_after_destroy_key (cs : CryptoState) (h : Nat) (k : KeyCell)
    (hk : lookupKey cs h = some k) (ops : List CryptoOp) (ct pt : List Nat) :
    (applyCryptoOps (cs.destroy_key h) ops).decrypt h ct
        = .error .CryptoError
    ∧ (applyCryptoOps (cs.destroy_key h) ops).encrypt h pt
        = .error .CryptoError
    ∧ KeyDeadZero (applyCryptoOps (cs.destroy_key h) ops) h := by
  have hd := applyCryptoOps_preserves_dead h ops _
    (destroy_key_dead_zero cs h k hk)
  exact ⟨decrypt_of_dead _ _ hd ct, encrypt_of_dead _ _ hd pt, hd⟩

/-- Witness for C4: destroy the one key of cryptoA, generate another key,
then decrypt and encrypt on handle 0 both fail and the cell is zeroed. -/
theorem decrypt_after_destroy_key_witness :
    (applyCryptoOps (cryptoA.destroy_key 0) [CryptoOp.genKey .TRANSIENT]).decrypt 0 [5]
        = .error .CryptoError
    ∧ (applyCryptoOps (cryptoA.destroy_key 0) [CryptoOp.genKey .TRANSIENT]).encrypt 0 [6]
        = .error .CryptoError
    ∧ KeyDeadZero (applyCryptoOps (cryptoA.destroy_key 0)
        [CryptoOp.genKey .TRANSIENT]) 0 :=
  decrypt_after_destroy_key cryptoA 0 keyA (by rfl)
    [CryptoOp.genKey .TRANSIENT] [5] [6]

/-- Claim C5: every issued certificate signs the deterministic canonical
encoding of {resource_id, method, timestamp, signer_key_id} in that fixed
order; verification succeeds against the signer key identity, and fails for
any alteration of one or more of those fields. -/
theorem certificate_signature_canonical (cid rid : Nat)
    (m : DestructionMethod) (ts signer r2 : Nat) (m2 : DestructionMethod)
    (t2 s2 : Nat)
    (hdiff : ¬(r2 = rid ∧ m2 = m ∧ t2 = ts ∧ s2 = signer)) :
    (issueCertificate cid rid m ts signer).signature
        = sign signer (canonicalEncoding rid m ts signer)
    ∧ verify signer (canonicalEncoding rid m ts signer)
        (issueCertificate cid rid m ts signer).signature = true
    ∧ verify s2 (canonicalEncoding r2 m2 t2 s2)
        (issueCertificate cid rid m ts signer).signature = false := by
  refine ⟨rfl, ?_, ?_⟩
  · simp [verify, issueCertificate, sign]
  · simp only [verify, issueCertificate, sign]
    rw [decide_eq_false_iff_not]
    intro hcon
    obtain ⟨hp, hk⟩ := hcon
    unfold canonicalEncoding at hp
    simp only [List.cons.injEq, and_true] at hp
    obtain ⟨e1, e2, e3, e4⟩ := hp
    exact hdiff ⟨e1.symm, (methodCode_inj m m2 e2).symm, e3.symm, e4.symm⟩

/-- Witness for C5: a concrete certificate verifies, and altering the
resource id from 1 to 2 makes verification fail. -/
theorem certificate_signature_canonical_witness :
    (issueCertificate 0 1 .EXPLICIT 5 9).signature
        = sign 9 (canonicalEncoding 1 .EXPLICIT 5 9)
    ∧ verify 9 (canonicalEncoding 1 .EXPLICIT 5 9)
        (issueCertificate 0 1 .EXPLICIT 5 9).signature = true
    ∧ verify 9 (canonicalEncoding 2 .EXPLICIT 5 9)
        (issueCertificate 0 1 .EXPLICIT 5 9).signature = false :=
  certificate_signature_canonical 0 1 .EXPLICIT 5 9 2 .EXPLICIT 5 9
    (by decide)

/-- Claim C6: a put whose requested TTL exceeds the maximum of the
classification fails with ConfigurationError (no silent clamp) and leaves
the store state - the key counter of the crypto provider included -
unchanged, so no key is generated. -/
theorem put_rejects_excess_ttl (s : StoreState) (now : Nat)
    (data : List Nat) (ttl : Nat) (c : DataClassification)
    (md : List (String × String)) (h : c.max_ttl < ttl) :
    s.put now data (some ttl) c md = .error .ConfigurationError
    ∧ applyOp s (.putOp now data (some ttl) c md) = s := by
  have hp : s.put now data (some ttl) c md = .error .ConfigurationError := by
    unfold StoreState.put
    simp [h]
  refine ⟨hp, ?_⟩
  show (match s.put now data (some ttl) c md with
    | .ok p => p.1 | .error _ => s) = s
  rw [hp]

/-- Witness for C6, the concrete scenario of the spec: TRANSIENT has max
TTL 3600 seconds and a put with ttl 7200 (two hours) fails. -/
theorem put_rejects_excess_ttl_witness :
    (mkStore true 9).put 0 [1] (some 7200) .TRANSIENT []
        = .error .ConfigurationError
    ∧ applyOp (mkStore true 9) (.putOp 0 [1] (some 7200) .TRANSIENT [])
        = mkStore true 9 :=
  put_rejects_excess_ttl (mkStore true 9) 0 [1] 7200 .TRANSIENT []
    (by decide)

/-- Claim C7: destroy is idempotent on already-destroyed ids on every
destruction path - after a successful destruction (explicit or reaper
EXPIRED), a second destroy on the same id (any method, any time) succeeds
and returns the same certificate with the state unchanged; destroy fails
with RecordNotFoundError only when the id has no record and no tombstone,
that is, it never existed or was never destroyed. -/
theorem destroy_idempotent (s s3 : StoreState) (now now2 n3 : Nat)
    (id id3 : Nat) (m m2 m3 : DestructionMethod) (s2 : StoreState)
    (cert : DestructionCertificate)
    (hfirst : destroyWith s now id m = .ok (s2, cert)) :
    destroyWith s2 now2 id m2 = .ok (s2, cert)
    ∧ (destroyWith s3 n3 id3 m3 = .error .RecordNotFoundError →
        s3.lookupRecord id3 = none) :=
  ⟨destroyWith_idem s now now2 id m m2 s2 cert hfirst,
   fun he => destroyWith_notfound_lookup s3 n3 id3 m3 he⟩

/-- Witness for C7: a second destroy (reaper method) on the destroyed
record 0 of storeB returns the original certificate, and a destroy on the
empty store yields RecordNotFoundError only because id 3 is absent. -/
theorem destroy_idempotent_witness :
    destroyWith storeB 50 0 .EXPIRED = .ok (storeB, certB)
    ∧ (destroyWith (mkStore true 9) 7 3 .EXPLICIT
          = .error .RecordNotFoundError →
        (mkStore true 9).lookupRecord 3 = none) :=
  destroy_idempotent storeA (mkStore true 9) 5 50 7 0 3 .EXPLICIT .EXPIRED
    .EXPLICIT storeB certB (by rfl)

/-- Claim C8: the sealed-scope exit sequence is, in order: all registered
cleanup callbacks in registration order with failures logged (recorded) and
not propagated, then the buffer wipe, then - when attestation is enabled -
issuance of a SEAL_EXIT certificate; and when the scope wraps a function
returning a mapping, the certificate is attached under the reserved key. -/
theorem sealed_exit_sequence (att : Bool) (steps : List ScopeStep)
    (oc : SealedOutcome) (m : List (String × String))
    (cid rid now signer : Nat) :
    (runSealed att steps oc cid rid now signer).events
        = (registeredCleanups steps).map
            (fun c => SealedEvent.cleanupRan c.cb_id (!c.fails))
          ++ [SealedEvent.buffersWiped]
          ++ (if att then [SealedEvent.certIssued cid] else [])
    ∧ (runSealed att steps oc cid rid now signer).certificate
        = (if att then some (issueCertificate cid rid .SEAL_EXIT now signer)
           else none)
    ∧ (runSealed true steps (.normalMap m) cid rid now signer).result
        = .normalMap (m ++ [(reservedCertKey, toString cid)]) := by
  refine ⟨?_, ?_, ?_⟩
  · show runCleanups (buildScope steps).cleanups ++ _ ++ _ = _
    rw [buildScope_eq]
    cases att <;> rfl
  · cases att <;> rfl
  · rfl

/-- Claim C10: after a sealed scope with attestation enabled exits, the
scope exposes the issued SEAL_EXIT certificate as its certificate
attribute, whose certificate_id is the issued id - so the certificate stays
retrievable from the scope object after exit, as the example callers use. -/
theorem sealed_certificate_attribute (steps : List ScopeStep)
    (oc : SealedOutcome) (cid rid now signer : Nat) :
    (runSealed true steps oc cid rid now signer).certificate
        = some (issueCertificate cid rid .SEAL_EXIT now signer)
    ∧ (issueCertificate cid rid .SEAL_EXIT now signer).certificate_id
        = cid :=
  ⟨rfl, rfl⟩

/-- Claim C9: exists is a total Bool-valued liveness check (it never
raises), and it returns true exactly when the record is present, ACTIVE,
and its expires-at has not passed. -/
theorem existsRecord_characterization (s : StoreState) (now id : Nat) :
    s.existsRecord now id = true ↔
      ∃ r, s.lookupRecord id = some r ∧ r.state = RecState.ACTIVE ∧
        now < r.expires_at := by
  unfold StoreState.existsRecord
  cases hl : s.lookupRecord id with
  | none => simp
  | some r => simp

end EFSF
